import Mathlib

/-!
Verification of the StateStinger fuzzing engine (GoSec-Labs/StateStinger).

The development shallowly embeds the Go sources:
  * `cmd/statestinger/main.go` (engine package): the four mutation
    strategies (`RandomTxMutator`, `BoundaryValueMutator`,
    `StatefulMutator`, `SpecialCasesMutator`) with their
    `GenerateFuzzInput` and `ValidateOutput` methods;
  * the engine package's `FuzzEngine` (`NewFuzzerEngine`, `Run`,
    `trackResult`) and data shapes (`FuzzResult`, `FuzzSummary`);
  * `utils/target/cosmossdk`'s `CosmosModule.ExecuteFuzz`.

Go's `*rand.Rand` is modelled as a deterministic oracle: an infinite
stream of raw draws together with a cursor; each `Intn`/`Read` call
consumes stream positions.  `Intn n` reduces the draw `mod n` (every
value in `[0, n)` is attainable for a suitable stream, matching the
uniform draw), and `Read` fills a buffer with one byte (`mod 256`) per
stream position.  Machine bytes are `Nat`s reduced `% 256` where the
source reduces them.  Go `error` values are modelled by `Option String`
holding `err.Error()`, and the adapter's output `[]byte` by
`Option String` (the simulated target only ever produces ASCII tags and
the validators only compare `string(output)` against string literals).

A second, heap-explicit model of the stateful strategy lives in the
`Mem` namespace further below; it tracks backing arrays and slice
headers in order to settle the aliasing claim about reported verdicts.
-/

namespace StateStinger

/-- Deterministic model of Go's `*rand.Rand`: an oracle stream of raw
draws plus a cursor.  All strategies and the engine share one such
value, exactly as the Go code shares one `*rand.Rand`. -/
structure Rand where
  stream : Nat → Nat
  pos : Nat

/-- `m.rand.Intn(n)`: consume one draw, reduced into `[0, n)`. -/
def Rand.intn (r : Rand) (n : Nat) : Nat × Rand :=
  (r.stream r.pos % n, { stream := r.stream, pos := r.pos + 1 })

/-- `m.rand.Read(buf)` for a buffer of length `k`: fill with `k` random
bytes, consuming `k` stream positions. -/
def Rand.readBytes (r : Rand) (k : Nat) : List Nat × Rand :=
  ((List.range k).map (fun i => r.stream (r.pos + i) % 256),
   { stream := r.stream, pos := r.pos + k })

/-- The engine package's `FuzzResult` record.  Field defaults are Go's
zero values, so a Lean structure literal that sets only some fields
matches the corresponding Go composite literal. -/
structure FuzzResult where
  id : String := ""
  input : List Nat := []
  errorMessage : String := ""
  failed : Bool := false
  stateInconsistency : Bool := false
  consensusFailure : Bool := false
  crashed : Bool := false
deriving DecidableEq, Repr

/-- The engine package's `FuzzSummary` aggregate counters (Go zero
value: all zero). -/
structure FuzzSummary where
  totalTests : Nat := 0
  failed : Nat := 0
  stateInconsistencies : Nat := 0
  consensusFailures : Nat := 0
  crashes : Nat := 0
deriving DecidableEq, Repr

/-- `binary.LittleEndian.PutUint64`: the eight little-endian bytes of a
64-bit word. -/
def putUint64LE (v : Nat) : List Nat :=
  [v % 256, v / 256 % 256, v / 256 ^ 2 % 256, v / 256 ^ 3 % 256,
   v / 256 ^ 4 % 256, v / 256 ^ 5 % 256, v / 256 ^ 6 % 256, v / 256 ^ 7 % 256]

/-- `RandomTxMutator.GenerateFuzzInput`: a random length in
`16 + Intn(4080)` bytes, filled with random bytes. -/
def randomTxGenerate (r : Rand) : List Nat × Rand :=
  let (n, r1) := r.intn 4080
  let length := 16 + n
  r1.readBytes length

/-- `RandomTxMutator.ValidateOutput`'s output-based classification (the
code reached when the error, if any, was benign). -/
def randomOutcomeCheck (t : Nat) (output : Option String) : Option FuzzResult :=
  match output with
  | some o =>
    if o.length > 0 then
      if o == "state_inconsistent" then
        some { id := "random_tx_" ++ toString t, failed := true,
               stateInconsistency := true,
               errorMessage := "State inconsistency detected" }
      else if o == "consensus_failure" then
        some { id := "random_tx_" ++ toString t, failed := true,
               consensusFailure := true,
               errorMessage := "Consensus failure detected" }
      else none
    else none
  | none => none

/-- `RandomTxMutator.ValidateOutput`.  `t` models the
`time.Now().UnixNano()` value used to build the verdict id. -/
def randomValidate (t : Nat) (output : Option String) (err : Option String) :
    Option FuzzResult :=
  match err with
  | some e =>
    if e != "invalid arguments" && e != "permission denied" then
      some { id := "random_tx_" ++ toString t, failed := true,
             errorMessage := e, crashed := true }
    else randomOutcomeCheck t output
  | none => randomOutcomeCheck t output

/-- `BoundaryValueMutator.GenerateFuzzInput`.  The source `switch` has
cases `0`–`5` for `Intn(6)`; the final match arm is the `case 5` body
(values above `5` are unreachable since the scrutinee is `% 6`). -/
def boundaryGenerate (r : Rand) : List Nat × Rand :=
  let (testCase, r1) := r.intn 6
  match testCase with
  | 0 => ([], r1)
  | 1 =>
    let (b, r2) := r1.intn 256
    ([b], r2)
  | 2 => (putUint64LE 0xFFFFFFFFFFFFFFFF ++ putUint64LE 0xFFFFFFFFFFFFFFFF, r1)
  | 3 =>
    let (n, r2) := r1.intn 100
    (List.replicate (16 + n) 0, r2)
  | 4 => (putUint64LE 0x8000000000000000 ++ List.replicate 8 0, r1)
  | _ =>
    let (n, r2) := r1.intn 5
    r2.readBytes (1024 * 1024 * (1 + n))

/-- `BoundaryValueMutator.ValidateOutput`'s output-based classification. -/
def boundaryOutcomeCheck (t : Nat) (output : Option String) : Option FuzzResult :=
  match output with
  | some o =>
    if o.length > 0 then
      if o == "state_inconsistent" then
        some { id := "boundary_" ++ toString t, failed := true,
               stateInconsistency := true,
               errorMessage := "State inconsistency detected with boundary value" }
      else if o == "consensus_failure" then
        some { id := "boundary_" ++ toString t, failed := true,
               consensusFailure := true,
               errorMessage := "Consensus failure detected with boundary value" }
      else none
    else none
  | none => none

/-- `BoundaryValueMutator.ValidateOutput`. -/
def boundaryValidate (t : Nat) (output : Option String) (err : Option String) :
    Option FuzzResult :=
  match err with
  | some e =>
    if e != "invalid arguments" && e != "permission denied" then
      some { id := "boundary_" ++ toString t, failed := true,
             errorMessage := e, crashed := true }
    else boundaryOutcomeCheck t output
  | none => boundaryOutcomeCheck t output

/-- `StatefulMutator.GenerateFuzzInput`: builds
`opType ++ header(4) ++ currentState ++ extra(8+Intn(92))`, then appends
`input[0]` to the history and truncates the history to its last 64
bytes when it exceeds 64.  Returns `(input, new history, rand)`. -/
def statefulGenerate (hist : List Nat) (r : Rand) : List Nat × List Nat × Rand :=
  let (opType, r1) := r.intn 4
  let (header, r2) := r1.readBytes 4
  let withState :=
    if hist.length > 0 then [opType] ++ header ++ hist else [opType] ++ header
  let (en, r3) := r2.intn 92
  let (extra, r4) := r3.readBytes (8 + en)
  let input := withState ++ extra
  let hist1 := hist ++ [input.headD 0]
  let hist2 := if hist1.length > 64 then hist1.drop (hist1.length - 64) else hist1
  (input, hist2, r4)

/-- `StatefulMutator.ValidateOutput`'s trailing error check (the code
reached when the output produced no verdict). -/
def statefulErrCheck (t : Nat) (hist : List Nat) (err : Option String) :
    Option FuzzResult :=
  match err with
  | some e =>
    if e != "invalid arguments" && e != "permission denied" then
      some { id := "stateful_" ++ toString t, failed := true,
             errorMessage := "Unexpected error in state sequence: " ++ e,
             crashed := true, input := hist }
    else none
  | none => none

/-- `StatefulMutator.ValidateOutput`: unlike the other three
strategies, the output-based classification comes FIRST and the error
check last; verdicts carry the history buffer as `Input`. -/
def statefulValidate (t : Nat) (hist : List Nat) (output : Option String)
    (err : Option String) : Option FuzzResult :=
  match output with
  | some o =>
    if o.length > 0 then
      if o == "state_inconsistent" then
        some { id := "stateful_" ++ toString t, failed := true,
               stateInconsistency := true,
               errorMessage := "State transition inconsistency detected",
               input := hist }
      else if o == "consensus_failure" then
        some { id := "stateful_" ++ toString t, failed := true,
               consensusFailure := true,
               errorMessage := "Consensus failure in state transition sequence",
               input := hist }
      else statefulErrCheck t hist err
    else statefulErrCheck t hist err
  | none => statefulErrCheck t hist err

/-- The seven predefined corpus entries of `NewSpecialCasesMutator`. -/
def specialCases : List (List Nat) :=
  [[0x1, 0x0, 0x0, 0x0, 0xAA, 0xBB, 0xCC, 0xDD],
   [0x2, 0xFF, 0xFF, 0xFF, 0xFF, 0x0, 0x0, 0x0],
   [0x3, 0x1, 0x0, 0x0, 0x0, 0x1, 0x0, 0x0, 0x0],
   [0x4, 0xF0, 0xF0, 0xF0, 0xF0, 0x0, 0x0, 0x0, 0x0],
   [0x5, 0x1, 0x0, 0x0, 0x0, 0xFF, 0xFF, 0xFF, 0xFF],
   [0x6, 0xFF, 0xFF, 0xFF, 0xFF, 0xFF, 0xFF, 0xFF, 0xFF],
   [0x7, 0xA, 0xB, 0xC, 0xD, 0x1, 0x0, 0x0, 0x0]]

/-- Go's `baseCase := make([]byte, dstLen); copy(baseCase, src)`:
`src` truncated to `dstLen` bytes and zero-padded when shorter. -/
def goCopyInto (dstLen : Nat) (src : List Nat) : List Nat :=
  src.take dstLen ++ List.replicate (dstLen - src.length) 0

/-- The mutation loop of `SpecialCasesMutator.GenerateFuzzInput`: `n`
iterations, each drawing a position and a replacement byte. -/
def mutateLoop : Nat → List Nat → Rand → List Nat × Rand
  | 0, l, r => (l, r)
  | Nat.succ k, l, r =>
    let (pos, r1) := r.intn l.length
    let (b, r2) := r1.intn 256
    mutateLoop k (l.set pos b) r2

/-- `SpecialCasesMutator.GenerateFuzzInput`.  Note the mutate branch
draws TWO independent entry indices: the first only for the length of
the fresh buffer, the second for the bytes copied into it. -/
def specialGenerate (r : Rand) : List Nat × Rand :=
  let (p, r1) := r.intn 100
  let useRaw := p < 75
  if useRaw then
    let (i, r2) := r1.intn specialCases.length
    let baseCase := specialCases.getD i []
    let (plen, r3) := r2.intn 100
    let (padding, r4) := r3.readBytes plen
    (baseCase ++ padding, r4)
  else
    let (i, r2) := r1.intn specialCases.length
    let (j, r3) := r2.intn specialCases.length
    let baseCase := goCopyInto (specialCases.getD i []).length (specialCases.getD j [])
    let (mn, r4) := r3.intn 5
    let (mutated, r5) := mutateLoop (1 + mn) baseCase r4
    let (plen, r6) := r5.intn 100
    let (padding, r7) := r6.readBytes plen
    (mutated ++ padding, r7)

/-- `SpecialCasesMutator.ValidateOutput`'s output-based classification. -/
def specialOutcomeCheck (t : Nat) (output : Option String) : Option FuzzResult :=
  match output with
  | some o =>
    if o.length > 0 then
      if o == "state_inconsistent" then
        some { id := "special_" ++ toString t, failed := true,
               stateInconsistency := true,
               errorMessage := "Special case triggered state inconsistency" }
      else if o == "consensus_failure" then
        some { id := "special_" ++ toString t, failed := true,
               consensusFailure := true,
               errorMessage := "Special case triggered consensus failure" }
      else none
    else none
  | none => none

/-- `SpecialCasesMutator.ValidateOutput`. -/
def specialValidate (t : Nat) (output : Option String) (err : Option String) :
    Option FuzzResult :=
  match err with
  | some e =>
    if e != "invalid arguments" && e != "permission denied" then
      some { id := "special_" ++ toString t, failed := true,
             errorMessage := "Special case triggered error: " ++ e,
             crashed := true }
    else specialOutcomeCheck t output
  | none => specialOutcomeCheck t output

/-- `CosmosModule.ExecuteFuzz` from `utils/target/cosmossdk`: the
simulated target.  Returns `(output, error)`. -/
def executeFuzz (handlers : List String) (input : List Nat) :
    Option String × Option String :=
  if input.length < 4 then (none, some "input too short")
  else
    let handlerIndex := input.getD 0 0 % (handlers.length + 1)
    if handlerIndex == handlers.length then
      (none, some "simulated error: invalid handler")
    else
      match input.getD 1 0 % 5 with
      | 0 => (some "success", none)
      | 1 => (none, some "invalid arguments")
      | 2 => (none, some "permission denied")
      | 3 => (some "state_inconsistent", none)
      | 4 => (some "consensus_failure", none)
      | _ => (some "unknown", none)

/-- The run configuration fields the engine loop consumes.  The other
`Config` fields (target path, module name, output directory, verbosity)
only feed the external collaborators (target loading and the on-disk
result store) and never influence the loop itself. -/
structure Config where
  fuzzCount : Nat
  seed : Int
  specialCasesFlag : Bool

/-- `FuzzEngine.trackResult`. -/
def trackResult (s : FuzzSummary) (res : FuzzResult) : FuzzSummary :=
  if res.failed then
    { s with
      failed := s.failed + 1
      stateInconsistencies :=
        s.stateInconsistencies + (if res.stateInconsistency then 1 else 0)
      consensusFailures :=
        s.consensusFailures + (if res.consensusFailure then 1 else 0)
      crashes := s.crashes + (if res.crashed then 1 else 0) }
  else s

/-- The summary update of one loop iteration: `trackResult` on a
non-nil verdict, then `f.summary.TotalTests++`. -/
def stepSummary (s : FuzzSummary) (res : Option FuzzResult) : FuzzSummary :=
  let s1 :=
    match res with
    | some v => trackResult s v
    | none => s
  { s1 with totalTests := s1.totalTests + 1 }

/-- Engine state threaded through the loop: the shared randomness
stream, the `StatefulMutator`'s private history, the aggregate summary,
the recorded verdicts, and (as a pure observer) the sequence of
(strategy index, generated input) pairs the loop produced. -/
structure EngineState where
  rand : Rand
  hist : List Nat
  summary : FuzzSummary
  results : List FuzzResult
  trace : List (Nat × List Nat)

/-- Strategy dispatch for `GenerateFuzzInput`, in registration order:
`0 = RandomTx`, `1 = BoundaryValue`, `2 = Stateful`, `3 = SpecialCases`.
Returns `(input, new stateful history, rand)`. -/
def generateAt (idx : Nat) (hist : List Nat) (r : Rand) :
    List Nat × List Nat × Rand :=
  match idx with
  | 0 =>
    let (inp, r1) := randomTxGenerate r
    (inp, hist, r1)
  | 1 =>
    let (inp, r1) := boundaryGenerate r
    (inp, hist, r1)
  | 2 => statefulGenerate hist r
  | _ =>
    let (inp, r1) := specialGenerate r
    (inp, hist, r1)

/-- Strategy dispatch for `ValidateOutput`, same indexing as
`generateAt`. -/
def validateAt (idx t : Nat) (hist : List Nat) (output err : Option String) :
    Option FuzzResult :=
  match idx with
  | 0 => randomValidate t output err
  | 1 => boundaryValidate t output err
  | 2 => statefulValidate t hist output err
  | _ => specialValidate t output err

/-- One iteration of `FuzzEngine.Run`'s main loop: choose a strategy
with `Intn(len(mutators))`, generate, execute on the target adapter,
validate with the SAME strategy, then track the verdict and bump
`TotalTests`.  `t` models the `time.Now().UnixNano()` draw of this
round. -/
def stepRound (adapter : List Nat → Option String × Option String)
    (t nMut : Nat) (s : EngineState) : EngineState :=
  let (mi, r1) := s.rand.intn nMut
  let (input, hist1, r2) := generateAt mi s.hist r1
  let (output, err) := adapter input
  let res := validateAt mi t hist1 output err
  { rand := r2
    hist := hist1
    summary := stepSummary s.summary res
    results := s.results ++ res.toList
    trace := s.trace ++ [(mi, input)] }

/-- The main loop of `FuzzEngine.Run` after the target module loaded:
`n` remaining rounds, `i` the current round index (feeding the time
oracle `tm`). -/
def runLoop (adapter : List Nat → Option String × Option String)
    (tm : Nat → Nat) (nMut i : Nat) : Nat → EngineState → EngineState
  | 0, s => s
  | Nat.succ k, s =>
    runLoop adapter tm nMut (i + 1) k (stepRound adapter (tm i) nMut s)

/-- `NewFuzzerEngine`'s seeding: `config.Seed` when non-zero, else a
time-derived seed.  `seedStream` abstracts the (out of scope) PRNG
algorithm mapping a seed to its stream of draws. -/
def newEngineRand (seedStream : Int → Nat → Nat) (timeSeed : Int)
    (cfg : Config) : Rand :=
  let seed := if cfg.seed = 0 then timeSeed else cfg.seed
  { stream := seedStream seed, pos := 0 }

/-- Number of registered mutators: the three defaults plus
`SpecialCasesMutator` when `config.SpecialCases` is set. -/
def numMutators (cfg : Config) : Nat :=
  if cfg.specialCasesFlag then 4 else 3

/-- `NewFuzzerEngine` followed by `Run`, given a successfully loaded
target (`adapter` is the loaded module's `ExecuteFuzz`; a failed load
aborts the run before this loop and is out of scope here).  `timeSeed`
and `tm` are the two time oracles (seed fallback and verdict-id
timestamps). -/
def engineRun (seedStream : Int → Nat → Nat) (timeSeed : Int) (tm : Nat → Nat)
    (cfg : Config) (adapter : List Nat → Option String × Option String) :
    EngineState :=
  let r := newEngineRand seedStream timeSeed cfg
  runLoop adapter tm (numMutators cfg) 0 cfg.fuzzCount
    { rand := r, hist := [], summary := {}, results := [], trace := [] }

/-- The stateful history and randomness after `n` `GenerateFuzzInput`
calls on a `StatefulMutator` fresh from `NewStatefulMutator` (whose
`currentState` is `make([]byte, 0)`, i.e. empty). -/
def statefulHistAfter (r : Rand) : Nat → List Nat × Rand
  | 0 => ([], r)
  | Nat.succ k =>
    let (h, r1) := statefulHistAfter r k
    let (_, h2, r2) := statefulGenerate h r1
    (h2, r2)

/-- How many of the three specific failure flags a verdict sets. -/
def flagCount (v : FuzzResult) : Nat :=
  (if v.stateInconsistency then 1 else 0) +
    (if v.consensusFailure then 1 else 0) + (if v.crashed then 1 else 0)

/-- Hamming distance of two byte lists (number of positions, up to the
shorter length, whose bytes differ). -/
def hamming : List Nat → List Nat → Nat
  | [], _ => 0
  | _ :: _, [] => 0
  | a :: as, b :: bs => (if a = b then 0 else 1) + hamming as bs

/-- The shape claimed for `SpecialCasesMutator` outputs: some split
into `base ++ padding` with at most 99 padding bytes where `base` is a
corpus entry verbatim, or a same-length copy of a corpus entry with at
most 5 positions changed (1 to 5 point mutations can touch at most 5
positions). -/
def corpusClaimShape (out : List Nat) : Prop :=
  ∃ k, k ≤ out.length ∧ out.length - k ≤ 99 ∧
    (out.take k ∈ specialCases ∨
      ∃ c ∈ specialCases, (out.take k).length = c.length ∧ hamming (out.take k) c ≤ 5)

/-- Executable check for `corpusClaimShape`. -/
def corpusClaimCheck (out : List Nat) : Bool :=
  (List.range (out.length + 1)).any fun k =>
    decide (out.length - k ≤ 99) &&
      (specialCases.any (fun c => out.take k == c) ||
        specialCases.any fun c =>
          decide ((out.take k).length = c.length) && decide (hamming (out.take k) c ≤ 5))

/-- The shape `SpecialCasesMutator` outputs actually have: as in
`corpusClaimShape`, except that in the mutated branch the base is built
from TWO independently chosen entries — the bytes of one copied into a
zeroed buffer sized by the other — before at most 5 point mutations. -/
def amendedCorpusShape (out : List Nat) : Prop :=
  ∃ k, k ≤ out.length ∧ out.length - k ≤ 99 ∧
    (out.take k ∈ specialCases ∨
      ∃ ci ∈ specialCases, ∃ cj ∈ specialCases,
        (out.take k).length = ci.length ∧
          hamming (out.take k) (goCopyInto ci.length cj) ≤ 5)

/-- Boundary shape 1: empty input. -/
abbrev shapeEmpty (l : List Nat) : Prop := l = []

/-- Boundary shape 2: a single byte. -/
abbrev shapeSingle (l : List Nat) : Prop := l.length = 1

/-- Boundary shape 3: exactly 16 bytes encoding two little-endian
all-ones 64-bit words, i.e. `0xFF` repeated. -/
abbrev shapeMaxU64 (l : List Nat) : Prop := l.length = 16 ∧ ∀ b ∈ l, b = 255

/-- Boundary shape 4: 16 to 115 bytes, all zero. -/
abbrev shapeZeros (l : List Nat) : Prop :=
  16 ≤ l.length ∧ l.length ≤ 115 ∧ ∀ b ∈ l, b = 0

/-- Boundary shape 5: exactly 16 bytes, first 8 the little-endian
encoding of `0x8000000000000000`, last 8 zero. -/
abbrev shapeMinI64 (l : List Nat) : Prop :=
  l = putUint64LE 0x8000000000000000 ++ List.replicate 8 0

/-- Boundary shape 6: 1 to 5 MiB of (arbitrary) bytes — a whole number
of MiB between 1 and 5. -/
abbrev shapeHuge (l : List Nat) : Prop :=
  1048576 ≤ l.length ∧ l.length ≤ 5 * 1048576 ∧ l.length % 1048576 = 0

/-- How many of the six canonical boundary shapes a list matches. -/
def shapeCount (l : List Nat) : Nat :=
  (if shapeEmpty l then 1 else 0) + (if shapeSingle l then 1 else 0) +
    (if shapeMaxU64 l then 1 else 0) + (if shapeZeros l then 1 else 0) +
    (if shapeMinI64 l then 1 else 0) + (if shapeHuge l then 1 else 0)

/-- A concrete randomness stream driving `specialGenerate` into its
mutate branch with the length taken from entry 0 (8 bytes) and the
bytes from entry 2 (9 bytes). -/
def badStream : Nat → Nat := fun n => [99, 0, 2, 0, 0, 3, 0].getD n 0

/-- The crash verdict `RandomTxMutator.ValidateOutput` emits at
timestamp 0 for a nil output and the error `boom`. -/
def crashVerdictExample : FuzzResult :=
  { id := "random_tx_0", failed := true, errorMessage := "boom", crashed := true }

end StateStinger

namespace Mem

/-!
A heap-explicit model of the `StatefulMutator`, faithful to Go slice
semantics: a `Store` holds the backing arrays, a `Slice` is a header
(array id, start offset, length) as in Go, `append` writes in place
when capacity remains and reallocates otherwise (the exact capacity
growth Go chooses is amortized doubling; the theorems below do not
depend on the growth factor), and re-slicing `s[k:]` only moves the
header.  This is the model in which the aliasing of
`FuzzResult.Input = m.currentState` is observable.
-/

/-- A Go slice header: backing array id, start offset, length. -/
structure Slice where
  arr : Nat
  off : Nat
  len : Nat
deriving DecidableEq, Repr

/-- The heap: backing arrays, addressed by their index of allocation. -/
structure Store where
  heap : List (List Nat)
deriving DecidableEq, Repr

/-- `make([]byte, size)`: allocate a fresh zeroed array. -/
def Store.alloc (st : Store) (size : Nat) : Slice × Store :=
  (⟨st.heap.length, 0, size⟩, ⟨st.heap ++ [List.replicate size 0]⟩)

/-- The bytes visible through a slice header. -/
def Store.readSlice (st : Store) (s : Slice) : List Nat :=
  ((st.heap.getD s.arr []).drop s.off).take s.len

/-- Write one byte into array `a` at absolute index `i`. -/
def Store.writeByte (st : Store) (a i b : Nat) : Store :=
  ⟨st.heap.set a ((st.heap.getD a []).set i b)⟩

/-- Write a run of bytes into array `a` starting at absolute index `i`. -/
def Store.writeList (st : Store) (a i : Nat) : List Nat → Store
  | [] => st
  | b :: bs => (st.writeByte a i b).writeList a (i + 1) bs

/-- A slice's remaining capacity measured Go-style from its offset to
the end of the backing array. -/
def Slice.cap (st : Store) (s : Slice) : Nat :=
  (st.heap.getD s.arr []).length - s.off

/-- Go `append(s, b)`: write in place past the end when capacity
remains, otherwise allocate a bigger array and copy. -/
def Store.append1 (st : Store) (s : Slice) (b : Nat) : Slice × Store :=
  if s.len < s.cap st then
    (⟨s.arr, s.off, s.len + 1⟩, st.writeByte s.arr (s.off + s.len) b)
  else
    let content := st.readSlice s ++ [b]
    let newCap := 2 * s.len + 1
    (⟨st.heap.length, 0, s.len + 1⟩,
     ⟨st.heap ++ [content ++ List.replicate (newCap - (s.len + 1)) 0]⟩)

/-- Go `append(s, bs...)`, modelled one byte at a time (Go grows the
capacity once up front; the visible bytes are the same either way). -/
def Store.appendMany (st : Store) (s : Slice) : List Nat → Slice × Store
  | [] => (s, st)
  | b :: bs =>
    let (s1, st1) := st.append1 s b
    st1.appendMany s1 bs

/-- `m.rand.Read(buf)` in the heap model: fill `buf`'s bytes with
random draws. -/
def Store.randRead (st : Store) (s : Slice) (r : StateStinger.Rand) :
    Store × StateStinger.Rand :=
  (st.writeList s.arr s.off
      ((List.range s.len).map fun i => r.stream (r.pos + i) % 256),
   { stream := r.stream, pos := r.pos + s.len })

/-- `FuzzResult` with its `Input` field kept as a slice header, so that
aliasing against the live history buffer is observable. -/
structure FuzzResultM where
  id : String := ""
  input : Slice := ⟨0, 0, 0⟩
  errorMessage : String := ""
  failed : Bool := false
  stateInconsistency : Bool := false
  consensusFailure : Bool := false
  crashed : Bool := false
deriving DecidableEq, Repr

/-- `StatefulMutator.GenerateFuzzInput` in the heap model.  `cur` is
`m.currentState`.  Returns `(input slice, store, new currentState,
rand)`.  The final `if` is the truncation
`m.currentState = m.currentState[len-64:]`, a pure re-slice. -/
def statefulGenerateM (st : Store) (cur : Slice) (r : StateStinger.Rand) :
    Slice × Store × Slice × StateStinger.Rand :=
  let (opType, r1) := r.intn 4
  let (input0, st1) := st.alloc 0
  let (input1, st2) := st1.append1 input0 opType
  let (header, st3) := st2.alloc 4
  let (st4, r2) := st3.randRead header r1
  let (input2, st5) := st4.appendMany input1 (st4.readSlice header)
  let (input3, st6) :=
    if cur.len > 0 then st5.appendMany input2 (st5.readSlice cur)
    else (input2, st5)
  let (en, r3) := r2.intn 92
  let (extra, st7) := st6.alloc (8 + en)
  let (st8, r4) := st7.randRead extra r3
  let (input4, st9) := st8.appendMany input3 (st8.readSlice extra)
  let (cur1, st10) := st9.append1 cur ((st9.readSlice input4).headD 0)
  let cur2 :=
    if cur1.len > 64 then ⟨cur1.arr, cur1.off + (cur1.len - 64), 64⟩ else cur1
  (input4, st10, cur2, r4)

/-- The trailing error check of `StatefulMutator.ValidateOutput` in the
heap model. -/
def statefulErrCheckM (cur : Slice) (err : Option String) (t : Nat) :
    Option FuzzResultM :=
  match err with
  | some e =>
    if e != "invalid arguments" && e != "permission denied" then
      some { id := "stateful_" ++ toString t, failed := true,
             errorMessage := "Unexpected error in state sequence: " ++ e,
             crashed := true, input := cur }
    else none
  | none => none

/-- `StatefulMutator.ValidateOutput` in the heap model: the emitted
verdict's `Input` field is the slice header `m.currentState` itself —
`Input: m.currentState` in the source copies a slice header, not the
bytes. -/
def statefulValidateM (cur : Slice) (output err : Option String) (t : Nat) :
    Option FuzzResultM :=
  match output with
  | some o =>
    if o.length > 0 then
      if o == "state_inconsistent" then
        some { id := "stateful_" ++ toString t, failed := true,
               stateInconsistency := true,
               errorMessage := "State transition inconsistency detected",
               input := cur }
      else if o == "consensus_failure" then
        some { id := "stateful_" ++ toString t, failed := true,
               consensusFailure := true,
               errorMessage := "Consensus failure in state transition sequence",
               input := cur }
      else statefulErrCheckM cur err t
    else statefulErrCheckM cur err t
  | none => statefulErrCheckM cur err t

/-- Well-formedness of the live history slice against the store. -/
def Wf (st : Store) (cur : Slice) : Prop :=
  cur.arr < st.heap.length ∧
    cur.off + cur.len ≤ (st.heap.getD cur.arr []).length

instance (st : Store) (cur : Slice) : Decidable (Wf st cur) := by
  unfold Wf
  exact inferInstance

/-- `n` further `GenerateFuzzInput` calls from a given heap state. -/
def memGenIter (st : Store) (cur : Slice) (r : StateStinger.Rand) :
    Nat → Store × Slice × StateStinger.Rand
  | 0 => (st, cur, r)
  | Nat.succ k =>
    let (_, st1, cur1, r1) := statefulGenerateM st cur r
    memGenIter st1 cur1 r1 k

/-- Frame fact carried across later `GenerateFuzzInput` calls: the
array `a` is allocated and the bytes visible through the window
`⟨a, o, n⟩` are `bytes`. -/
def Frame (a o n : Nat) (bytes : List Nat) (st : Store) : Prop :=
  a < st.heap.length ∧ st.readSlice ⟨a, o, n⟩ = bytes

/-- A slice is harmless for the window `⟨a, o, n⟩`: when it shares the
backing array `a`, its end sits at or after the window's end, so
appends through it write only past the window. -/
def CurOk (a o n : Nat) (s : Slice) : Prop :=
  s.arr = a → o + n ≤ s.off + s.len

/-- A concrete heap scenario: `NewStatefulMutator` (empty history) and
one `GenerateFuzzInput` call on an all-zeros randomness stream;
`memScenario.1` is the resulting store, `memScenario.2.1` the live
history slice. -/
def memScenario : Store × Slice :=
  let (cur0, st0) := Store.alloc ⟨[]⟩ 0
  let (_, st1, cur1, _) := statefulGenerateM st0 cur0 ⟨fun _ => 0, 0⟩
  (st1, cur1)

/-- The verdict `StatefulMutator.ValidateOutput` emits in the heap
model for a `state_inconsistent` output at `memScenario`. -/
def memVerdictExample : FuzzResultM :=
  { id := "stateful_0", failed := true, stateInconsistency := true,
    errorMessage := "State transition inconsistency detected",
    input := memScenario.2 }

end Mem

namespace StateStinger

theorem readBytes_length (r : Rand) (k : Nat) : (r.readBytes k).1.length = k := by
  simp [Rand.readBytes]

/-- C5: `RandomTxMutator.GenerateFuzzInput` always returns between 16
and 4095 bytes: the code draws `16 + Intn(4080)`, so — contrary to the
claim (and to the code's own comment `between 16 and 4096 bytes`) — the
length 4096 is attainable for NO state of the randomness stream. -/
theorem randomTxGenerate_length_bounds (r : Rand) :
    16 ≤ (randomTxGenerate r).1.length ∧ (randomTxGenerate r).1.length ≤ 4095 := by
  have hm : r.stream r.pos % 4080 < 4080 := Nat.mod_lt _ (by omega)
  unfold randomTxGenerate Rand.intn
  rw [readBytes_length]
  omega

theorem statefulGenerate_histLen (hist : List Nat) (r : Rand) :
    (statefulGenerate hist r).2.1.length = min (hist.length + 1) 64 := by
  unfold statefulGenerate Rand.intn Rand.readBytes
  by_cases h0 : hist.length > 0 <;>
    simp only [h0, if_true, if_false, gt_iff_lt] <;>
    split <;> simp_all <;> omega

theorem statefulGenerate_histEq (h : List Nat) (r0 : Rand) :
    (statefulGenerate h r0).2.1 =
      (h ++ [(statefulGenerate h r0).1.headD 0]).drop
        ((h.length + 1) - min (h.length + 1) 64) := by
  unfold statefulGenerate Rand.intn Rand.readBytes
  by_cases h0 : h.length > 0 <;>
    simp only [h0, if_true, if_false, gt_iff_lt] <;>
    split
  case pos.isTrue hl =>
    congr 1
    simp at hl ⊢
    have : min (h.length + 1) 64 = 64 := Nat.min_eq_right (by omega)
    omega
  case pos.isFalse hl =>
    simp at hl
    have : min (h.length + 1) 64 = h.length + 1 := Nat.min_eq_left (by omega)
    rw [this]
    simp
  case neg.isTrue hl =>
    congr 1
    simp at hl ⊢
    have : min (h.length + 1) 64 = 64 := Nat.min_eq_right (by omega)
    omega
  case neg.isFalse hl =>
    simp at hl
    have : min (h.length + 1) 64 = h.length + 1 := Nat.min_eq_left (by omega)
    rw [this]
    simp

/-- C2: the Stateful strategy's history starts empty, each
`GenerateFuzzInput` call appends exactly one byte — the generated
input's first byte — and the buffer is truncated to its most recent 64
bytes whenever it would exceed the cap, so after `n` calls the history
has length `min n 64`. -/
theorem stateful_history_invariant (r : Rand) (n : Nat) :
    (statefulHistAfter r n).1.length = min n 64 ∧
      ∀ (h : List Nat) (r0 : Rand),
        (statefulGenerate h r0).2.1 =
          (h ++ [(statefulGenerate h r0).1.headD 0]).drop
            ((h.length + 1) - min (h.length + 1) 64) := by
  refine ⟨?_, fun h r0 => statefulGenerate_histEq h r0⟩
  induction n with
  | zero => simp [statefulHistAfter]
  | succ k ih =>
    have hstep := statefulGenerate_histLen (statefulHistAfter r k).1
      (statefulHistAfter r k).2
    show (statefulGenerate (statefulHistAfter r k).1
        (statefulHistAfter r k).2).2.1.length = min (k + 1) 64
    rw [hstep, ih]
    omega


/-- C1 (counterexample): `StatefulMutator.ValidateOutput`, called with
the non-benign error `boom` AND the output `state_inconsistent`,
returns the state-inconsistency verdict with `crashed = false` — the
outcome-based classification wins, not the crash classification. -/
theorem statefulValidate_crash_does_not_win :
    (statefulValidate 0 [] (some "state_inconsistent") (some "boom")).map
        (fun v => (v.crashed, v.stateInconsistency, v.failed)) =
      some (false, true, true) := by
  rfl

/-- C1 (amended): with a non-benign error, `RandomTxMutator`,
`BoundaryValueMutator` and `SpecialCasesMutator` return a verdict with
`crashed = true, failed = true` regardless of the output; for
`StatefulMutator` the output checks come FIRST, so the same holds only
when the output is neither `state_inconsistent` nor
`consensus_failure` — on those outputs it returns the outcome verdict
with `crashed = false` instead. -/
theorem validate_crash_precedence (t : Nat) (hist : List Nat) (o : Option String)
    (e : String) (he1 : e ≠ "invalid arguments") (he2 : e ≠ "permission denied") :
    ((randomValidate t o (some e)).map (fun v => (v.crashed, v.failed)) =
        some (true, true)) ∧
      ((boundaryValidate t o (some e)).map (fun v => (v.crashed, v.failed)) =
        some (true, true)) ∧
      ((specialValidate t o (some e)).map (fun v => (v.crashed, v.failed)) =
        some (true, true)) ∧
      (o ≠ some "state_inconsistent" → o ≠ some "consensus_failure" →
        (statefulValidate t hist o (some e)).map (fun v => (v.crashed, v.failed)) =
          some (true, true)) ∧
      ((statefulValidate t hist (some "state_inconsistent") (some e)).map
          (fun v => (v.crashed, v.stateInconsistency, v.failed)) =
        some (false, true, true)) ∧
      ((statefulValidate t hist (some "consensus_failure") (some e)).map
          (fun v => (v.crashed, v.consensusFailure, v.failed)) =
        some (false, true, true)) := by
  have hb : (e != "invalid arguments" && e != "permission denied") = true := by
    rw [Bool.and_eq_true, bne_iff_ne, bne_iff_ne]
    exact ⟨he1, he2⟩
  refine ⟨?_, ?_, ?_, ?_, ?_, ?_⟩
  · simp [randomValidate, hb]
  · simp [boundaryValidate, hb]
  · simp [specialValidate, hb]
  · intro ho1 ho2
    match o with
    | none => simp [statefulValidate, statefulErrCheck, hb]
    | some s =>
      have hs1 : s ≠ "state_inconsistent" := fun h => ho1 (by rw [h])
      have hs2 : s ≠ "consensus_failure" := fun h => ho2 (by rw [h])
      by_cases hlen : s.length > 0
      · simp [statefulValidate, statefulErrCheck, hlen, hs1, hs2, hb]
      · simp [statefulValidate, statefulErrCheck, hlen, hb]
  · rfl
  · rfl

theorem validate_crash_precedence_witness :
    ("boom" ≠ "invalid arguments" ∧ "boom" ≠ "permission denied") ∧
      (((randomValidate 7 (some "weird") (some "boom")).map
            (fun v => (v.crashed, v.failed)) = some (true, true)) ∧
        ((boundaryValidate 7 (some "weird") (some "boom")).map
            (fun v => (v.crashed, v.failed)) = some (true, true)) ∧
        ((specialValidate 7 (some "weird") (some "boom")).map
            (fun v => (v.crashed, v.failed)) = some (true, true)) ∧
        ((some "weird" : Option String) ≠ some "state_inconsistent" →
          (some "weird" : Option String) ≠ some "consensus_failure" →
          (statefulValidate 7 [3] (some "weird") (some "boom")).map
              (fun v => (v.crashed, v.failed)) = some (true, true)) ∧
        ((statefulValidate 7 [3] (some "state_inconsistent") (some "boom")).map
            (fun v => (v.crashed, v.stateInconsistency, v.failed)) =
          some (false, true, true)) ∧
        ((statefulValidate 7 [3] (some "consensus_failure") (some "boom")).map
            (fun v => (v.crashed, v.consensusFailure, v.failed)) =
          some (false, true, true))) :=
  ⟨⟨by decide, by decide⟩,
    validate_crash_precedence 7 [3] (some "weird") "boom" (by decide) (by decide)⟩

/-- C10: any input of fewer than 4 bytes makes the built-in adapter's
`ExecuteFuzz` fail with the non-benign error `input too short`, and
every strategy's validator turns that adapter response (`nil` output,
that error) into a `crashed = true, failed = true` verdict; in
particular the Boundary strategy's empty and single-byte cases do. -/
theorem executeFuzz_short_input_crashes (handlers : List String)
    (input : List Nat) (hshort : input.length < 4) :
    executeFuzz handlers input = (none, some "input too short") ∧
      (∀ idx t : Nat, ∀ hist : List Nat,
        (validateAt idx t hist none (some "input too short")).map
            (fun v => (v.crashed, v.failed)) = some (true, true)) ∧
      (∀ t : Nat, ∀ b : Nat,
        ((boundaryValidate t (executeFuzz handlers []).1
              (executeFuzz handlers []).2).map (fun v => v.crashed) = some true) ∧
        ((boundaryValidate t (executeFuzz handlers [b]).1
              (executeFuzz handlers [b]).2).map (fun v => v.crashed) = some true)) := by
  have hexec : ∀ l : List Nat, l.length < 4 →
      executeFuzz handlers l = (none, some "input too short") := by
    intro l hl
    unfold executeFuzz
    rw [if_pos hl]
  refine ⟨hexec input hshort, ?_, ?_⟩
  · intro idx t hist
    match idx with
    | 0 => rfl
    | 1 => rfl
    | 2 => rfl
    | Nat.succ (Nat.succ (Nat.succ _)) => rfl
  · intro t b
    rw [hexec [] (by simp), hexec [b] (by simp)]
    exact ⟨rfl, rfl⟩

theorem executeFuzz_short_input_crashes_witness :
    ([(9 : Nat), 9].length < 4) ∧
      (executeFuzz ["h1"] [9, 9] = (none, some "input too short") ∧
        (∀ idx t : Nat, ∀ hist : List Nat,
          (validateAt idx t hist none (some "input too short")).map
              (fun v => (v.crashed, v.failed)) = some (true, true)) ∧
        (∀ t : Nat, ∀ b : Nat,
          ((boundaryValidate t (executeFuzz ["h1"] []).1
                (executeFuzz ["h1"] []).2).map (fun v => v.crashed) = some true) ∧
          ((boundaryValidate t (executeFuzz ["h1"] [b]).1
                (executeFuzz ["h1"] [b]).2).map (fun v => v.crashed) = some true))) :=
  ⟨by decide, executeFuzz_short_input_crashes ["h1"] [9, 9] (by decide)⟩

theorem shapeCount_single (x : Nat) : shapeCount [x] = 1 := by
  have h5 : ¬ shapeMinI64 [x] := by
    intro h
    have := congrArg List.length h
    simp at this
  simp [shapeCount, shapeEmpty, shapeSingle, shapeMaxU64, shapeZeros,
    shapeHuge, h5]

theorem shapeCount_zeros (n : Nat) (h16 : 16 ≤ n) (h115 : n ≤ 115) :
    shapeCount (List.replicate n 0) = 1 := by
  have hlen : (List.replicate n 0).length = n := List.length_replicate n 0
  have h1 : ¬ shapeEmpty (List.replicate n 0) := by
    intro h
    have := congrArg List.length h
    simp at this
    omega
  have h2 : ¬ shapeSingle (List.replicate n 0) := by
    intro h
    rw [shapeSingle, hlen] at h
    omega
  have h3 : ¬ shapeMaxU64 (List.replicate n 0) := by
    intro h
    have hmem : (0 : Nat) ∈ List.replicate n 0 :=
      List.mem_replicate.mpr ⟨by omega, rfl⟩
    have := h.2 0 hmem
    omega
  have h4 : shapeZeros (List.replicate n 0) := by
    refine ⟨by omega, by omega, fun b hb => ?_⟩
    exact (List.mem_replicate.mp hb).2
  have h5 : ¬ shapeMinI64 (List.replicate n 0) := by
    intro h
    have hmem : (128 : Nat) ∈ List.replicate n 0 := by
      rw [h]
      decide
    have := (List.mem_replicate.mp hmem).2
    omega
  have h6 : ¬ shapeHuge (List.replicate n 0) := by
    intro h
    rw [shapeHuge, hlen] at h
    omega
  simp [shapeCount, h1, h2, h3, h4, h5, h6]
  omega

theorem shapeCount_huge (l : List Nat) (h1 : 1048576 ≤ l.length)
    (h2 : l.length ≤ 5 * 1048576) (h3 : l.length % 1048576 = 0) :
    shapeCount l = 1 := by
  have he : ¬ shapeEmpty l := by
    intro h
    rw [shapeEmpty] at h
    rw [h] at h1
    simp at h1
  have hs : ¬ shapeSingle l := by
    intro h
    rw [shapeSingle] at h
    omega
  have hm : ¬ shapeMaxU64 l := by
    intro h
    have := h.1
    omega
  have hz : ¬ shapeZeros l := by
    intro h
    have := h.2.1
    omega
  have hmin : ¬ shapeMinI64 l := by
    intro h
    have := congrArg List.length h
    simp [putUint64LE] at this
    omega
  have hh : shapeHuge l := ⟨h1, h2, h3⟩
  simp [shapeCount, he, hs, hm, hz, hmin, hh]

/-- C6: every `BoundaryValueMutator.GenerateFuzzInput` result matches
exactly one of the six canonical shapes — empty; a single byte; 16
bytes of `0xFF` (two little-endian all-ones 64-bit words); 16–115 bytes
all zero; 16 bytes with `0x8000000000000000` little-endian in the first
8 and zeros in the last 8; or a whole number of MiB between 1 and 5. -/
theorem boundaryGenerate_exactly_one_shape (r : Rand) :
    shapeCount (boundaryGenerate r).1 = 1 := by
  have hm : r.stream r.pos % 6 < 6 := Nat.mod_lt _ (by omega)
  unfold boundaryGenerate Rand.intn
  rcases h : r.stream r.pos % 6 with _ | _ | _ | _ | _ | _ | m
  · simp only [h]
    decide
  · simp only [h]
    exact shapeCount_single _
  · simp only [h]
    decide
  · simp only [h]
    refine shapeCount_zeros _ (by omega) ?_
    have : r.stream (r.pos + 1) % 100 < 100 := Nat.mod_lt _ (by omega)
    omega
  · simp only [h]
    decide
  · simp only [h]
    have hlen : ((⟨r.stream, r.pos + 1 + 1⟩ : Rand).readBytes
        (1024 * 1024 * (1 + r.stream (r.pos + 1) % 5))).1.length =
        1024 * 1024 * (1 + r.stream (r.pos + 1) % 5) := readBytes_length _ _
    refine shapeCount_huge _ ?_ ?_ ?_
    · rw [hlen]
      have : 1 ≤ 1 + r.stream (r.pos + 1) % 5 := by omega
      calc 1048576 = 1024 * 1024 * 1 := by norm_num
        _ ≤ 1024 * 1024 * (1 + r.stream (r.pos + 1) % 5) :=
          Nat.mul_le_mul_left _ this
    · rw [hlen]
      have : 1 + r.stream (r.pos + 1) % 5 ≤ 5 := by
        have := Nat.mod_lt (r.stream (r.pos + 1)) (show 0 < 5 by omega)
        omega
      calc 1024 * 1024 * (1 + r.stream (r.pos + 1) % 5) ≤ 1024 * 1024 * 5 :=
          Nat.mul_le_mul_left _ this
        _ = 5 * 1048576 := by norm_num
    · rw [hlen]
      have : (1024 : Nat) * 1024 = 1048576 := by norm_num
      rw [this]
      exact Nat.mul_mod_right _ _
  · omega

theorem getD_mem_of_lt {l : List (List Nat)} {i : Nat} (h : i < l.length) :
    l.getD i [] ∈ l := by
  rw [List.getD_eq_getElem l [] h]
  exact List.getElem_mem h

theorem hamming_refl (l : List Nat) : hamming l l = 0 := by
  induction l with
  | nil => rfl
  | cons a as ih => simp [hamming, ih]

theorem hamming_set_le (l : List Nat) (p b : Nat) :
    hamming (l.set p b) l ≤ 1 := by
  induction l generalizing p with
  | nil => simp [hamming]
  | cons a as ih =>
    match p with
    | 0 =>
      simp only [List.set]
      simp [hamming, hamming_refl]
      split <;> omega
    | Nat.succ q =>
      simp only [List.set]
      simp [hamming]
      have := ih q
      omega

theorem hamming_triangle (a b c : List Nat) (hab : a.length = b.length)
    (hbc : b.length = c.length) : hamming a c ≤ hamming a b + hamming b c := by
  induction a generalizing b c with
  | nil =>
    match b, c with
    | [], [] => simp [hamming]
  | cons x as ih =>
    match b, c with
    | y :: bs, z :: cs =>
      simp only [List.length_cons, Nat.add_right_cancel_iff] at hab hbc
      have ihh := ih bs cs hab hbc
      simp only [hamming]
      by_cases hxy : x = y <;> by_cases hyz : y = z <;> by_cases hxz : x = z <;>
        simp only [hxy, hyz, hxz, if_true, if_false, if_pos, if_neg,
          not_false_iff] <;>
        omega

theorem mutateLoop_length (n : Nat) : ∀ (l : List Nat) (r : Rand),
    (mutateLoop n l r).1.length = l.length := by
  induction n with
  | zero => intro l r; rfl
  | succ k ih =>
    intro l r
    unfold mutateLoop Rand.intn
    rw [ih]
    exact List.length_set l _ _

theorem mutateLoop_hamming (n : Nat) : ∀ (l : List Nat) (r : Rand),
    hamming (mutateLoop n l r).1 l ≤ n := by
  induction n with
  | zero =>
    intro l r
    simp [mutateLoop, hamming_refl]
  | succ k ih =>
    intro l r
    show hamming (mutateLoop k
        (l.set (r.stream r.pos % l.length) (r.stream (r.pos + 1) % 256))
        ⟨r.stream, r.pos + 1 + 1⟩).1 l ≤ k + 1
    have h1 := ih (l.set (r.stream r.pos % l.length) (r.stream (r.pos + 1) % 256))
      ⟨r.stream, r.pos + 1 + 1⟩
    have h2 := hamming_set_le l (r.stream r.pos % l.length)
      (r.stream (r.pos + 1) % 256)
    have h3 := hamming_triangle
      (mutateLoop k (l.set (r.stream r.pos % l.length) (r.stream (r.pos + 1) % 256))
        ⟨r.stream, r.pos + 1 + 1⟩).1
      (l.set (r.stream r.pos % l.length) (r.stream (r.pos + 1) % 256)) l
      (by rw [mutateLoop_length, List.length_set])
      (List.length_set l _ _)
    omega

theorem goCopyInto_length (dstLen : Nat) (src : List Nat) :
    (goCopyInto dstLen src).length = dstLen := by
  simp [goCopyInto]
  omega

theorem corpusClaimShape_check (out : List Nat) (h : corpusClaimShape out) :
    corpusClaimCheck out = true := by
  obtain ⟨k, hk, hpad, hcase⟩ := h
  rw [corpusClaimCheck, List.any_eq_true]
  refine ⟨k, List.mem_range.mpr (by omega), ?_⟩
  rw [Bool.and_eq_true, decide_eq_true_iff]
  refine ⟨hpad, ?_⟩
  rw [Bool.or_eq_true]
  rcases hcase with hmem | ⟨c, hc, hlen, hham⟩
  · left
    rw [List.any_eq_true]
    exact ⟨out.take k, hmem, by rw [beq_iff_eq]⟩
  · right
    rw [List.any_eq_true]
    refine ⟨c, hc, ?_⟩
    rw [Bool.and_eq_true, decide_eq_true_iff, decide_eq_true_iff]
    exact ⟨hlen, hham⟩

/-- C4 (counterexample): driving `SpecialCasesMutator.GenerateFuzzInput`
into its mutate branch with the buffer length taken from corpus entry 0
(8 bytes) and the bytes copied from entry 2 (9 bytes) produces the
output `[3, 1, 0, 0, 0, 1, 0, 0]` (one identity mutation, no padding),
which is neither a corpus entry verbatim nor within 5 point mutations
of any same-length corpus entry. -/
theorem specialGenerate_not_claim_shape :
    ¬ corpusClaimShape (specialGenerate { stream := badStream, pos := 0 }).1 := by
  intro h
  have hb := corpusClaimShape_check _ h
  have hfalse :
      corpusClaimCheck (specialGenerate { stream := badStream, pos := 0 }).1 =
        false := by decide
  rw [hfalse] at hb
  cases hb

theorem amended_of_append_raw (base pad : List Nat) (hb : base ∈ specialCases)
    (hp : pad.length ≤ 99) : amendedCorpusShape (base ++ pad) := by
  unfold amendedCorpusShape
  refine ⟨base.length, by simp, ?_, Or.inl ?_⟩
  · simp
    omega
  · rw [List.take_left]
    exact hb

theorem amended_of_append_mut (ci cj mutated pad : List Nat)
    (hci : ci ∈ specialCases) (hcj : cj ∈ specialCases)
    (hlen : mutated.length = ci.length)
    (hham : hamming mutated (goCopyInto ci.length cj) ≤ 5)
    (hp : pad.length ≤ 99) : amendedCorpusShape (mutated ++ pad) := by
  unfold amendedCorpusShape
  refine ⟨mutated.length, by simp, ?_, Or.inr ⟨ci, hci, cj, hcj, ?_, ?_⟩⟩
  · simp
    omega
  · rw [List.take_left, hlen]
  · rw [List.take_left]
    exact hham

/-- C4 (amended): every `SpecialCasesMutator.GenerateFuzzInput` output
splits as `base ++ padding` with at most 99 padding bytes, where `base`
is either a corpus entry verbatim, or — because the mutate branch draws
the length-giving entry and the byte-giving entry with two independent
uniform draws — a buffer of one entry's length holding another
(possibly different) entry's bytes truncated/zero-padded to that
length, with at most 5 positions changed by the 1-5 point mutations. -/
theorem specialGenerate_amended_shape (r : Rand) :
    amendedCorpusShape (specialGenerate r).1 := by
  have hlen7 : 0 < specialCases.length := by decide
  simp only [specialGenerate, Rand.intn]
  by_cases hraw : r.stream r.pos % 100 < 75
  · rw [if_pos hraw]
    exact amended_of_append_raw _ _
      (getD_mem_of_lt (Nat.mod_lt _ hlen7))
      (by rw [readBytes_length]
          omega)
  · rw [if_neg hraw]
    exact amended_of_append_mut
      (specialCases.getD (r.stream (r.pos + 1) % specialCases.length) [])
      (specialCases.getD (r.stream (r.pos + 1 + 1) % specialCases.length) []) _ _
      (getD_mem_of_lt (Nat.mod_lt _ hlen7))
      (getD_mem_of_lt (Nat.mod_lt _ hlen7))
      (by rw [mutateLoop_length, goCopyInto_length])
      (by
        have h1 := mutateLoop_hamming
          (1 + r.stream (r.pos + 1 + 1 + 1) % 5)
          (goCopyInto
            (specialCases.getD (r.stream (r.pos + 1) % specialCases.length) []).length
            (specialCases.getD (r.stream (r.pos + 1 + 1) % specialCases.length) []))
          ⟨r.stream, r.pos + 1 + 1 + 1 + 1⟩
        omega)
      (by rw [readBytes_length]
          omega)

theorem stepRound_rand (adapter : List Nat → Option String × Option String)
    (t nMut : Nat) (s : EngineState) :
    (stepRound adapter t nMut s).rand =
      (generateAt (s.rand.intn nMut).1 s.hist (s.rand.intn nMut).2).2.2 := rfl

theorem stepRound_hist (adapter : List Nat → Option String × Option String)
    (t nMut : Nat) (s : EngineState) :
    (stepRound adapter t nMut s).hist =
      (generateAt (s.rand.intn nMut).1 s.hist (s.rand.intn nMut).2).2.1 := rfl

theorem stepRound_trace (adapter : List Nat → Option String × Option String)
    (t nMut : Nat) (s : EngineState) :
    (stepRound adapter t nMut s).trace =
      s.trace ++ [((s.rand.intn nMut).1,
        (generateAt (s.rand.intn nMut).1 s.hist (s.rand.intn nMut).2).1)] := rfl

theorem stepRound_summary (adapter : List Nat → Option String × Option String)
    (t nMut : Nat) (s : EngineState) :
    (stepRound adapter t nMut s).summary =
      stepSummary s.summary
        (validateAt (s.rand.intn nMut).1 t
          (generateAt (s.rand.intn nMut).1 s.hist (s.rand.intn nMut).2).2.1
          (adapter (generateAt (s.rand.intn nMut).1 s.hist (s.rand.intn nMut).2).1).1
          (adapter (generateAt (s.rand.intn nMut).1 s.hist (s.rand.intn nMut).2).1).2) := rfl

theorem runLoop_zero (adapter : List Nat → Option String × Option String)
    (tm : Nat → Nat) (nMut i : Nat) (s : EngineState) :
    runLoop adapter tm nMut i 0 s = s := rfl

theorem runLoop_succ (adapter : List Nat → Option String × Option String)
    (tm : Nat → Nat) (nMut i k : Nat) (s : EngineState) :
    runLoop adapter tm nMut i (k + 1) s =
      runLoop adapter tm nMut (i + 1) k (stepRound adapter (tm i) nMut s) := rfl

theorem stepRound_congr (adapter : List Nat → Option String × Option String)
    (t1 t2 nMut : Nat) (s1 s2 : EngineState) (hr : s1.rand = s2.rand)
    (hh : s1.hist = s2.hist) (ht : s1.trace = s2.trace) :
    (stepRound adapter t1 nMut s1).rand = (stepRound adapter t2 nMut s2).rand ∧
      (stepRound adapter t1 nMut s1).hist = (stepRound adapter t2 nMut s2).hist ∧
      (stepRound adapter t1 nMut s1).trace =
        (stepRound adapter t2 nMut s2).trace := by
  refine ⟨?_, ?_, ?_⟩
  · rw [stepRound_rand, stepRound_rand, hr, hh]
  · rw [stepRound_hist, stepRound_hist, hr, hh]
  · rw [stepRound_trace, stepRound_trace, hr, hh, ht]

theorem runLoop_congr (adapter : List Nat → Option String × Option String)
    (tm1 tm2 : Nat → Nat) (nMut : Nat) :
    ∀ (n i1 i2 : Nat) (s1 s2 : EngineState),
      s1.rand = s2.rand → s1.hist = s2.hist → s1.trace = s2.trace →
      (runLoop adapter tm1 nMut i1 n s1).trace =
        (runLoop adapter tm2 nMut i2 n s2).trace := by
  intro n
  induction n with
  | zero =>
    intro i1 i2 s1 s2 hr hh ht
    rw [runLoop_zero, runLoop_zero]
    exact ht
  | succ k ih =>
    intro i1 i2 s1 s2 hr hh ht
    rw [runLoop_succ, runLoop_succ]
    obtain ⟨cr, chh, cht⟩ :=
      stepRound_congr adapter (tm1 i1) (tm2 i2) nMut s1 s2 hr hh ht
    exact ih (i1 + 1) (i2 + 1) _ _ cr chh cht

/-- C3: with a fixed non-zero seed, two independent constructions and
runs of the engine with identical configuration and identical adapter
behaviour produce identical sequences of (strategy choice, generated
input) pairs, whatever the ambient time (`timeSeed`, the seed fallback,
and `tm`, the verdict-id timestamps) happened to be in each run. -/
theorem engineRun_deterministic (seedStream : Int → Nat → Nat) (t1 t2 : Int)
    (tm1 tm2 : Nat → Nat) (cfg : Config)
    (adapter : List Nat → Option String × Option String)
    (hseed : cfg.seed ≠ 0) :
    (engineRun seedStream t1 tm1 cfg adapter).trace =
      (engineRun seedStream t2 tm2 cfg adapter).trace := by
  unfold engineRun newEngineRand
  simp only [if_neg hseed]
  exact runLoop_congr adapter tm1 tm2 (numMutators cfg) cfg.fuzzCount 0 0 _ _
    rfl rfl rfl

theorem engineRun_deterministic_witness :
    ((⟨2, 42, true⟩ : Config).seed ≠ 0) ∧
      (engineRun (fun sd n => sd.toNat + n) 1 (fun i => i) ⟨2, 42, true⟩
          (fun _ => (some "success", none))).trace =
        (engineRun (fun sd n => sd.toNat + n) 99 (fun i => 1000 + i) ⟨2, 42, true⟩
          (fun _ => (some "success", none))).trace :=
  ⟨by decide,
    engineRun_deterministic (fun sd n => sd.toNat + n) 1 99 (fun i => i)
      (fun i => 1000 + i) ⟨2, 42, true⟩ (fun _ => (some "success", none))
      (by decide)⟩

theorem trackResult_totalTests (s : FuzzSummary) (v : FuzzResult) :
    (trackResult s v).totalTests = s.totalTests := by
  unfold trackResult
  split <;> rfl

theorem stepSummary_totalTests (s : FuzzSummary) (res : Option FuzzResult) :
    (stepSummary s res).totalTests = s.totalTests + 1 := by
  cases res with
  | none => rfl
  | some v =>
    show (trackResult s v).totalTests + 1 = s.totalTests + 1
    rw [trackResult_totalTests]

theorem runLoop_totalTests (adapter : List Nat → Option String × Option String)
    (tm : Nat → Nat) (nMut : Nat) :
    ∀ (n i : Nat) (s : EngineState),
      (runLoop adapter tm nMut i n s).summary.totalTests =
        s.summary.totalTests + n := by
  intro n
  induction n with
  | zero =>
    intro i s
    rw [runLoop_zero]
    omega
  | succ k ih =>
    intro i s
    rw [runLoop_succ, ih]
    rw [stepRound_summary, stepSummary_totalTests]
    omega

theorem validateAt_success (idx t : Nat) (hist : List Nat) :
    validateAt idx t hist (some "success") none = none := by
  match idx with
  | 0 => rfl
  | 1 => rfl
  | 2 => rfl
  | Nat.succ (Nat.succ (Nat.succ _)) => rfl

theorem stepRound_failed_success (adapter : List Nat → Option String × Option String)
    (hA : ∀ inp, adapter inp = (some "success", none)) (t nMut : Nat)
    (s : EngineState) :
    (stepRound adapter t nMut s).summary.failed = s.summary.failed := by
  rw [stepRound_summary, hA, validateAt_success]
  rfl

theorem runLoop_failed_success (adapter : List Nat → Option String × Option String)
    (hA : ∀ inp, adapter inp = (some "success", none)) (tm : Nat → Nat)
    (nMut : Nat) :
    ∀ (n i : Nat) (s : EngineState),
      (runLoop adapter tm nMut i n s).summary.failed = s.summary.failed := by
  intro n
  induction n with
  | zero =>
    intro i s
    rw [runLoop_zero]
  | succ k ih =>
    intro i s
    rw [runLoop_succ, ih, stepRound_failed_success adapter hA]

/-- C7: given the target loaded, `Run` performs exactly `FuzzCount`
rounds and reports `TotalTests = FuzzCount` for ANY adapter behaviour;
and with an adapter that answers every round with a `success` output
and nil error, the summary reports `Failed = 0`. -/
theorem engineRun_counts (seedStream : Int → Nat → Nat) (timeSeed : Int)
    (tm : Nat → Nat) (cfg : Config)
    (adapter adapterS : List Nat → Option String × Option String)
    (hA : ∀ inp, adapterS inp = (some "success", none)) :
    (engineRun seedStream timeSeed tm cfg adapter).summary.totalTests =
        cfg.fuzzCount ∧
      (engineRun seedStream timeSeed tm cfg adapterS).summary.totalTests =
        cfg.fuzzCount ∧
      (engineRun seedStream timeSeed tm cfg adapterS).summary.failed = 0 := by
  unfold engineRun
  refine ⟨?_, ?_, ?_⟩
  · rw [runLoop_totalTests]
    simp
  · rw [runLoop_totalTests]
    simp
  · rw [runLoop_failed_success adapterS hA]

theorem engineRun_counts_witness :
    (∀ inp : List Nat,
        (fun (_ : List Nat) => ((some "success" : Option String),
          (none : Option String))) inp = (some "success", none)) ∧
      ((engineRun (fun sd n => sd.toNat + n) 5 (fun i => i) ⟨3, 7, false⟩
            (fun _ => (none, some "boom"))).summary.totalTests = 3 ∧
        (engineRun (fun sd n => sd.toNat + n) 5 (fun i => i) ⟨3, 7, false⟩
            (fun _ => (some "success", none))).summary.totalTests = 3 ∧
        (engineRun (fun sd n => sd.toNat + n) 5 (fun i => i) ⟨3, 7, false⟩
            (fun _ => (some "success", none))).summary.failed = 0) :=
  ⟨fun _ => rfl,
    engineRun_counts (fun sd n => sd.toNat + n) 5 (fun i => i) ⟨3, 7, false⟩
      (fun _ => (none, some "boom")) (fun _ => (some "success", none))
      (fun _ => rfl)⟩

theorem randomOutcomeCheck_flags (t : Nat) (o : Option String) (v : FuzzResult)
    (hv : randomOutcomeCheck t o = some v) :
    v.failed = true ∧ flagCount v = 1 := by
  rcases o with _ | o
  · cases hv
  · simp only [randomOutcomeCheck] at hv
    split at hv
    · split at hv
      · rw [Option.some.injEq] at hv
        subst hv
        simp [flagCount]
      · split at hv
        · rw [Option.some.injEq] at hv
          subst hv
          simp [flagCount]
        · cases hv
    · cases hv

theorem randomValidate_flags (t : Nat) (o e : Option String) (v : FuzzResult)
    (hv : randomValidate t o e = some v) :
    v.failed = true ∧ flagCount v = 1 := by
  rcases e with _ | e
  · exact randomOutcomeCheck_flags t o v hv
  · simp only [randomValidate] at hv
    split at hv
    · rw [Option.some.injEq] at hv
      subst hv
      simp [flagCount]
    · exact randomOutcomeCheck_flags t o v hv

theorem boundaryOutcomeCheck_flags (t : Nat) (o : Option String) (v : FuzzResult)
    (hv : boundaryOutcomeCheck t o = some v) :
    v.failed = true ∧ flagCount v = 1 := by
  rcases o with _ | o
  · cases hv
  · simp only [boundaryOutcomeCheck] at hv
    split at hv
    · split at hv
      · rw [Option.some.injEq] at hv
        subst hv
        simp [flagCount]
      · split at hv
        · rw [Option.some.injEq] at hv
          subst hv
          simp [flagCount]
        · cases hv
    · cases hv

theorem boundaryValidate_flags (t : Nat) (o e : Option String) (v : FuzzResult)
    (hv : boundaryValidate t o e = some v) :
    v.failed = true ∧ flagCount v = 1 := by
  rcases e with _ | e
  · exact boundaryOutcomeCheck_flags t o v hv
  · simp only [boundaryValidate] at hv
    split at hv
    · rw [Option.some.injEq] at hv
      subst hv
      simp [flagCount]
    · exact boundaryOutcomeCheck_flags t o v hv

theorem specialOutcomeCheck_flags (t : Nat) (o : Option String) (v : FuzzResult)
    (hv : specialOutcomeCheck t o = some v) :
    v.failed = true ∧ flagCount v = 1 := by
  rcases o with _ | o
  · cases hv
  · simp only [specialOutcomeCheck] at hv
    split at hv
    · split at hv
      · rw [Option.some.injEq] at hv
        subst hv
        simp [flagCount]
      · split at hv
        · rw [Option.some.injEq] at hv
          subst hv
          simp [flagCount]
        · cases hv
    · cases hv

theorem specialValidate_flags (t : Nat) (o e : Option String) (v : FuzzResult)
    (hv : specialValidate t o e = some v) :
    v.failed = true ∧ flagCount v = 1 := by
  rcases e with _ | e
  · exact specialOutcomeCheck_flags t o v hv
  · simp only [specialValidate] at hv
    split at hv
    · rw [Option.some.injEq] at hv
      subst hv
      simp [flagCount]
    · exact specialOutcomeCheck_flags t o v hv

theorem statefulErrCheck_flags (t : Nat) (hist : List Nat) (e : Option String)
    (v : FuzzResult) (hv : statefulErrCheck t hist e = some v) :
    v.failed = true ∧ flagCount v = 1 := by
  rcases e with _ | e
  · cases hv
  · simp only [statefulErrCheck] at hv
    split at hv
    · rw [Option.some.injEq] at hv
      subst hv
      simp [flagCount]
    · cases hv

theorem statefulValidate_flags (t : Nat) (hist : List Nat) (o e : Option String)
    (v : FuzzResult) (hv : statefulValidate t hist o e = some v) :
    v.failed = true ∧ flagCount v = 1 := by
  rcases o with _ | o
  · exact statefulErrCheck_flags t hist e v hv
  · simp only [statefulValidate] at hv
    split at hv
    · split at hv
      · rw [Option.some.injEq] at hv
        subst hv
        simp [flagCount]
      · split at hv
        · rw [Option.some.injEq] at hv
          subst hv
          simp [flagCount]
        · exact statefulErrCheck_flags t hist e v hv
    · exact statefulErrCheck_flags t hist e v hv

theorem validateAt_flags (idx t : Nat) (hist : List Nat) (o e : Option String)
    (v : FuzzResult) (hv : validateAt idx t hist o e = some v) :
    v.failed = true ∧ flagCount v = 1 := by
  match idx with
  | 0 => exact randomValidate_flags t o e v hv
  | 1 => exact boundaryValidate_flags t o e v hv
  | 2 => exact statefulValidate_flags t hist o e v hv
  | Nat.succ (Nat.succ (Nat.succ _)) => exact specialValidate_flags t o e v hv

theorem stepSummary_flag_sum (s : FuzzSummary) (res : Option FuzzResult)
    (hres : ∀ v, res = some v → v.failed = true ∧ flagCount v = 1)
    (hs : s.failed = s.stateInconsistencies + s.consensusFailures + s.crashes) :
    (stepSummary s res).failed =
      (stepSummary s res).stateInconsistencies +
        (stepSummary s res).consensusFailures + (stepSummary s res).crashes := by
  cases res with
  | none => exact hs
  | some v =>
    obtain ⟨hf, hc⟩ := hres v rfl
    show (trackResult s v).failed =
      (trackResult s v).stateInconsistencies + (trackResult s v).consensusFailures +
        (trackResult s v).crashes
    unfold trackResult
    rw [if_pos hf]
    simp only [flagCount] at hc
    simp only []
    omega

theorem runLoop_flag_sum (adapter : List Nat → Option String × Option String)
    (tm : Nat → Nat) (nMut : Nat) :
    ∀ (n i : Nat) (s : EngineState),
      s.summary.failed =
        s.summary.stateInconsistencies + s.summary.consensusFailures +
          s.summary.crashes →
      (runLoop adapter tm nMut i n s).summary.failed =
        (runLoop adapter tm nMut i n s).summary.stateInconsistencies +
          (runLoop adapter tm nMut i n s).summary.consensusFailures +
          (runLoop adapter tm nMut i n s).summary.crashes := by
  intro n
  induction n with
  | zero =>
    intro i s hs
    rw [runLoop_zero]
    exact hs
  | succ k ih =>
    intro i s hs
    rw [runLoop_succ]
    apply ih
    rw [stepRound_summary]
    apply stepSummary_flag_sum _ _ _ hs
    intro v hv
    exact validateAt_flags _ _ _ _ _ v hv

/-- C9: every verdict any of the four validators emits has
`Failed = true` and exactly one of the three specific flags set; and
consequently, after any engine run,
`Failed = StateInconsistencies + ConsensusFailures + Crashes`. -/
theorem validate_flags_and_summary_sum (idx t : Nat) (hist : List Nat)
    (o e : Option String) (v : FuzzResult)
    (hv : validateAt idx t hist o e = some v) (seedStream : Int → Nat → Nat)
    (timeSeed : Int) (tm : Nat → Nat) (cfg : Config)
    (adapter : List Nat → Option String × Option String) :
    (v.failed = true ∧ flagCount v = 1) ∧
      (engineRun seedStream timeSeed tm cfg adapter).summary.failed =
        (engineRun seedStream timeSeed tm cfg adapter).summary.stateInconsistencies +
          (engineRun seedStream timeSeed tm cfg adapter).summary.consensusFailures +
          (engineRun seedStream timeSeed tm cfg adapter).summary.crashes := by
  refine ⟨validateAt_flags idx t hist o e v hv, ?_⟩
  unfold engineRun
  exact runLoop_flag_sum adapter tm (numMutators cfg) cfg.fuzzCount 0 _ rfl

theorem validate_flags_and_summary_sum_witness :
    (validateAt 0 0 [] none (some "boom") = some crashVerdictExample) ∧
      ((crashVerdictExample.failed = true ∧ flagCount crashVerdictExample = 1) ∧
        (engineRun (fun sd n => sd.toNat + n) 5 (fun i => i) ⟨2, 7, true⟩
            (fun _ => (none, some "boom"))).summary.failed =
          (engineRun (fun sd n => sd.toNat + n) 5 (fun i => i) ⟨2, 7, true⟩
              (fun _ => (none, some "boom"))).summary.stateInconsistencies +
            (engineRun (fun sd n => sd.toNat + n) 5 (fun i => i) ⟨2, 7, true⟩
                (fun _ => (none, some "boom"))).summary.consensusFailures +
            (engineRun (fun sd n => sd.toNat + n) 5 (fun i => i) ⟨2, 7, true⟩
                (fun _ => (none, some "boom"))).summary.crashes) :=
  ⟨by rfl,
    validate_flags_and_summary_sum 0 0 [] none (some "boom") crashVerdictExample
      (by rfl) (fun sd n => sd.toNat + n) 5 (fun i => i) ⟨2, 7, true⟩
      (fun _ => (none, some "boom"))⟩

end StateStinger

namespace Mem

theorem heapLen_writeByte (st : Store) (b i x : Nat) :
    (st.writeByte b i x).heap.length = st.heap.length := by
  unfold Store.writeByte
  simp

theorem readSlice_writeByte_ne (st : Store) (a o n b i x : Nat) (hne : b ≠ a) :
    (st.writeByte b i x).readSlice ⟨a, o, n⟩ = st.readSlice ⟨a, o, n⟩ := by
  unfold Store.writeByte Store.readSlice
  simp only []
  rw [List.getD_eq_getElem?_getD, List.getD_eq_getElem?_getD,
    List.getElem?_set_ne hne]
  rw [List.getD_eq_getElem?_getD]

theorem readSlice_writeByte_ge (st : Store) (a o n i x : Nat) (hge : o + n ≤ i)
    (ha : a < st.heap.length) :
    (st.writeByte a i x).readSlice ⟨a, o, n⟩ = st.readSlice ⟨a, o, n⟩ := by
  unfold Store.writeByte Store.readSlice
  simp only []
  have hset : (st.heap.set a ((st.heap.getD a []).set i x)).getD a [] =
      (st.heap.getD a []).set i x := by
    rw [List.getD_eq_getElem?_getD, List.getElem?_set_self]
    · simp
    · exact ha
  rw [hset]
  apply List.ext_getElem
  · simp
  · intro j h1 h2
    rw [List.getElem_take, List.getElem_take, List.getElem_drop, List.getElem_drop,
      List.getElem_set_ne]
    simp at h1
    omega

theorem readSlice_heap_grow (st : Store) (A : List Nat) (s : Slice)
    (h : s.arr < st.heap.length) :
    Store.readSlice ⟨st.heap ++ [A]⟩ s = st.readSlice s := by
  unfold Store.readSlice
  simp only []
  rw [List.getD_eq_getElem?_getD, List.getD_eq_getElem?_getD,
    List.getElem?_append_left h]

theorem frame_alloc (a o n k : Nat) (bytes : List Nat) (st : Store)
    (hf : Frame a o n bytes st) : Frame a o n bytes (st.alloc k).2 := by
  obtain ⟨ha, hr⟩ := hf
  constructor
  · unfold Store.alloc
    simp
    omega
  · show Store.readSlice ⟨st.heap ++ [List.replicate k 0]⟩ ⟨a, o, n⟩ = bytes
    rw [readSlice_heap_grow st (List.replicate k 0) ⟨a, o, n⟩ ha]
    exact hr

theorem alloc_curOk (a o n k : Nat) (bytes : List Nat) (st : Store)
    (hf : Frame a o n bytes st) : CurOk a o n (st.alloc k).1 := by
  intro harr
  exfalso
  obtain ⟨ha, hr⟩ := hf
  have harr2 : (st.alloc k).1.arr = st.heap.length := rfl
  omega

theorem alloc_arr_ne (a o n k : Nat) (bytes : List Nat) (st : Store)
    (hf : Frame a o n bytes st) : (st.alloc k).1.arr ≠ a := by
  intro harr
  obtain ⟨ha, hr⟩ := hf
  have harr2 : (st.alloc k).1.arr = st.heap.length := rfl
  omega

theorem frame_writeByte_ne (a o n b i x : Nat) (bytes : List Nat) (st : Store)
    (hne : b ≠ a) (hf : Frame a o n bytes st) :
    Frame a o n bytes (st.writeByte b i x) := by
  obtain ⟨ha, hr⟩ := hf
  exact ⟨by rw [heapLen_writeByte]; exact ha,
    by rw [readSlice_writeByte_ne st a o n b i x hne]; exact hr⟩

theorem frame_writeList_ne (a o n b : Nat) (bytes : List Nat) (hne : b ≠ a) :
    ∀ (bs : List Nat) (st : Store) (i : Nat), Frame a o n bytes st →
      Frame a o n bytes (st.writeList b i bs) := by
  intro bs
  induction bs with
  | nil => intro st i hf; exact hf
  | cons c cs ih =>
    intro st i hf
    exact ih (st.writeByte b i c) (i + 1) (frame_writeByte_ne a o n b i c bytes st hne hf)

theorem frame_randRead_ne (a o n : Nat) (bytes : List Nat) (st : Store)
    (s : Slice) (r : StateStinger.Rand) (hne : s.arr ≠ a)
    (hf : Frame a o n bytes st) : Frame a o n bytes (st.randRead s r).1 := by
  unfold Store.randRead
  exact frame_writeList_ne a o n s.arr bytes hne _ st s.off hf

theorem frame_append1 (a o n : Nat) (bytes : List Nat) (st : Store) (s : Slice)
    (b : Nat) (hf : Frame a o n bytes st) (hs : CurOk a o n s) :
    Frame a o n bytes (st.append1 s b).2 ∧ CurOk a o n (st.append1 s b).1 := by
  unfold Store.append1
  split
  case isTrue hcap =>
    constructor
    · by_cases harr : s.arr = a
      · subst harr
        obtain ⟨ha, hr⟩ := hf
        refine ⟨by rw [heapLen_writeByte]; exact ha, ?_⟩
        rw [readSlice_writeByte_ge st s.arr o n (s.off + s.len) b (hs rfl) ha]
        exact hr
      · exact frame_writeByte_ne a o n s.arr (s.off + s.len) b bytes st harr hf
    · intro harr
      have := hs harr
      simp only []
      omega
  case isFalse hcap =>
    constructor
    · obtain ⟨ha, hr⟩ := hf
      refine ⟨by simp; omega, ?_⟩
      show Store.readSlice ⟨st.heap ++ [_]⟩ ⟨a, o, n⟩ = bytes
      rw [readSlice_heap_grow st _ ⟨a, o, n⟩ ha]
      exact hr
    · intro harr
      exfalso
      obtain ⟨ha, hr⟩ := hf
      simp only [] at harr
      omega

theorem frame_appendMany (a o n : Nat) (bytes : List Nat) :
    ∀ (bs : List Nat) (st : Store) (s : Slice), Frame a o n bytes st →
      CurOk a o n s →
      Frame a o n bytes (st.appendMany s bs).2 ∧
        CurOk a o n (st.appendMany s bs).1 := by
  intro bs
  induction bs with
  | nil => intro st s hf hs; exact ⟨hf, hs⟩
  | cons c cs ih =>
    intro st s hf hs
    obtain ⟨hf1, hs1⟩ := frame_append1 a o n bytes st s c hf hs
    show Frame a o n bytes ((st.append1 s c).2.appendMany (st.append1 s c).1 cs).2 ∧
      CurOk a o n ((st.append1 s c).2.appendMany (st.append1 s c).1 cs).1
    exact ih (st.append1 s c).2 (st.append1 s c).1 hf1 hs1

theorem curOk_trunc (a o n : Nat) (cur1 : Slice) (h : CurOk a o n cur1) :
    CurOk a o n
      (if cur1.len > 64 then (⟨cur1.arr, cur1.off + (cur1.len - 64), 64⟩ : Slice)
       else cur1) := by
  split
  case isTrue h64 =>
    intro harr
    have := h harr
    simp only [] at this ⊢
    omega
  case isFalse h64 => exact h

theorem generateM_frame (st : Store) (cur : Slice) (r : StateStinger.Rand)
    (a o n : Nat) (bytes : List Nat) (hf : Frame a o n bytes st)
    (hc : CurOk a o n cur) :
    Frame a o n bytes (statefulGenerateM st cur r).2.1 ∧
      CurOk a o n (statefulGenerateM st cur r).2.2.1 := by
  unfold statefulGenerateM StateStinger.Rand.intn
  rcases e1 : st.alloc 0 with ⟨input0, st1⟩
  have f1 : Frame a o n bytes st1 := by
    have := frame_alloc a o n 0 bytes st hf
    rw [e1] at this
    exact this
  have c1 : CurOk a o n input0 := by
    have := alloc_curOk a o n 0 bytes st hf
    rw [e1] at this
    exact this
  rcases e2 : st1.append1 input0 (r.stream r.pos % 4) with ⟨input1, st2⟩
  have fc2 := frame_append1 a o n bytes st1 input0 (r.stream r.pos % 4) f1 c1
  rw [e2] at fc2
  obtain ⟨f2, c2⟩ := fc2
  rcases e3 : st2.alloc 4 with ⟨header, st3⟩
  have f3 : Frame a o n bytes st3 := by
    have := frame_alloc a o n 4 bytes st2 f2
    rw [e3] at this
    exact this
  have hne3 : header.arr ≠ a := by
    have := alloc_arr_ne a o n 4 bytes st2 f2
    rw [e3] at this
    exact this
  rcases e4 : st3.randRead header ⟨r.stream, r.pos + 1⟩ with ⟨st4, r2⟩
  have f4 : Frame a o n bytes st4 := by
    have := frame_randRead_ne a o n bytes st3 header ⟨r.stream, r.pos + 1⟩ hne3 f3
    rw [e4] at this
    exact this
  rcases e5 : st4.appendMany input1 (st4.readSlice header) with ⟨input2, st5⟩
  have fc5 := frame_appendMany a o n bytes (st4.readSlice header) st4 input1 f4 c2
  rw [e5] at fc5
  obtain ⟨f5, c5⟩ := fc5
  rcases e6 : (if cur.len > 0 then st5.appendMany input2 (st5.readSlice cur)
      else (input2, st5)) with ⟨input3, st6⟩
  have fc6 : Frame a o n bytes ((input3, st6) : Slice × Store).2 ∧
      CurOk a o n ((input3, st6) : Slice × Store).1 := by
    rw [← e6]
    split
    · exact frame_appendMany a o n bytes (st5.readSlice cur) st5 input2 f5 c5
    · exact ⟨f5, c5⟩
  obtain ⟨f6, c6⟩ := fc6
  rcases e7 : st6.alloc (8 + r2.stream r2.pos % 92) with ⟨extra, st7⟩
  have f7 : Frame a o n bytes st7 := by
    have := frame_alloc a o n (8 + r2.stream r2.pos % 92) bytes st6 f6
    rw [e7] at this
    exact this
  have hne7 : extra.arr ≠ a := by
    have := alloc_arr_ne a o n (8 + r2.stream r2.pos % 92) bytes st6 f6
    rw [e7] at this
    exact this
  rcases e8 : st7.randRead extra ⟨r2.stream, r2.pos + 1⟩ with ⟨st8, r4⟩
  have f8 : Frame a o n bytes st8 := by
    have := frame_randRead_ne a o n bytes st7 extra ⟨r2.stream, r2.pos + 1⟩ hne7 f7
    rw [e8] at this
    exact this
  rcases e9 : st8.appendMany input3 (st8.readSlice extra) with ⟨input4, st9⟩
  have fc9 := frame_appendMany a o n bytes (st8.readSlice extra) st8 input3 f8 c6
  rw [e9] at fc9
  obtain ⟨f9, c9⟩ := fc9
  rcases e10 : st9.append1 cur ((st9.readSlice input4).headD 0) with ⟨cur1, st10⟩
  have fc10 := frame_append1 a o n bytes st9 cur ((st9.readSlice input4).headD 0)
    f9 hc
  rw [e10] at fc10
  obtain ⟨f10, c10⟩ := fc10
  simp only [e1, e2, e3, e4, e5, e6, e7, e8, e9, e10]
  exact ⟨f10, curOk_trunc a o n cur1 c10⟩

theorem memGenIter_succ (st : Store) (cur : Slice) (r : StateStinger.Rand)
    (m : Nat) :
    memGenIter st cur r (m + 1) =
      memGenIter (statefulGenerateM st cur r).2.1
        (statefulGenerateM st cur r).2.2.1 (statefulGenerateM st cur r).2.2.2
        m := rfl

theorem memGenIter_frame (a o n : Nat) (bytes : List Nat) :
    ∀ (k : Nat) (st : Store) (cur : Slice) (r : StateStinger.Rand),
      Frame a o n bytes st → CurOk a o n cur →
      Frame a o n bytes (memGenIter st cur r k).1 ∧
        CurOk a o n (memGenIter st cur r k).2.1 := by
  intro k
  induction k with
  | zero =>
    intro st cur r hf hc
    exact ⟨hf, hc⟩
  | succ m ih =>
    intro st cur r hf hc
    obtain ⟨hf1, hc1⟩ := generateM_frame st cur r a o n bytes hf hc
    rw [memGenIter_succ]
    exact ih (statefulGenerateM st cur r).2.1 (statefulGenerateM st cur r).2.2.1
      (statefulGenerateM st cur r).2.2.2 hf1 hc1

theorem statefulErrCheckM_input (cur : Slice) (e : Option String) (t : Nat)
    (v : FuzzResultM) (hv : statefulErrCheckM cur e t = some v) :
    v.input = cur := by
  rcases e with _ | e
  · cases hv
  · simp only [statefulErrCheckM] at hv
    split at hv
    · rw [Option.some.injEq] at hv
      subst hv
      rfl
    · cases hv

theorem statefulValidateM_input (cur : Slice) (o e : Option String) (t : Nat)
    (v : FuzzResultM) (hv : statefulValidateM cur o e t = some v) :
    v.input = cur := by
  rcases o with _ | o
  · exact statefulErrCheckM_input cur e t v hv
  · simp only [statefulValidateM] at hv
    split at hv
    · split at hv
      · rw [Option.some.injEq] at hv
        subst hv
        rfl
      · split at hv
        · rw [Option.some.injEq] at hv
          subst hv
          rfl
        · exact statefulErrCheckM_input cur e t v hv
    · exact statefulErrCheckM_input cur e t v hv

/-- C8 (counterexample): at a concrete reachable state — a fresh
`StatefulMutator` after one `GenerateFuzzInput` call — the verdict
emitted by `ValidateOutput` on a `state_inconsistent` output carries as
its `Input` the very slice header `m.currentState` (same backing array,
offset and length), not a slice over a freshly allocated copy: the Go
source stores `Input: m.currentState`, an aliased live reference. -/
theorem statefulValidateM_aliases_live_history :
    (statefulValidateM memScenario.2 (some "state_inconsistent") none 0).map
        (fun v => v.input) = some memScenario.2 := by
  decide

/-- C8 (amended): the verdict's `Input` aliases the live history slice
(no copy is made); nevertheless, any number of later
`GenerateFuzzInput` calls leave the bytes visible through the reported
verdict's `Input` unchanged, because appends through the history slice
write only at or past its end, truncation is a pure re-slice, and all
other writes go to freshly allocated arrays. -/
theorem statefulValidateM_frame (st : Store) (cur : Slice) (o e : Option String)
    (t : Nat) (r : StateStinger.Rand) (k : Nat) (v : FuzzResultM)
    (hwf : Wf st cur) (hv : statefulValidateM cur o e t = some v) :
    v.input = cur ∧
      (memGenIter st cur r k).1.readSlice v.input = st.readSlice cur := by
  have hin : v.input = cur := statefulValidateM_input cur o e t v hv
  refine ⟨hin, ?_⟩
  rw [hin]
  have hf : Frame cur.arr cur.off cur.len (st.readSlice cur) st := ⟨hwf.1, rfl⟩
  have hc : CurOk cur.arr cur.off cur.len cur := fun _ => Nat.le_refl _
  have := (memGenIter_frame cur.arr cur.off cur.len (st.readSlice cur) k st cur r
    hf hc).1
  exact this.2

theorem statefulValidateM_frame_witness :
    Wf memScenario.1 memScenario.2 ∧
      (statefulValidateM memScenario.2 (some "state_inconsistent") none 0 =
        some memVerdictExample) ∧
      (memVerdictExample.input = memScenario.2 ∧
        (memGenIter memScenario.1 memScenario.2 ⟨fun i => i + 3, 0⟩ 2).1.readSlice
            memVerdictExample.input =
          memScenario.1.readSlice memScenario.2) :=
  ⟨by decide, by decide,
    statefulValidateM_frame memScenario.1 memScenario.2
      (some "state_inconsistent") none 0 ⟨fun i => i + 3, 0⟩ 2 memVerdictExample
      (by decide) (by decide)⟩

end Mem
